import Mathlib

/-!
# quiver: load generator (`cmd/load/load.go`) and collection fetching (`fetch.go`)

A shallow embedding of the rate-controlled dispatch engine of the load
generator and of the path handling of the collection fetcher.

Conventions of the embedding:

* a Go `string` is a finite sequence of bytes (`GoString`);
* a Go `int` is a 64-bit two's-complement integer: values are `Int`s and
  the product in `main` wraps through `wrapInt`;
* a function that can panic returns `Option`, `none` being the panic;
* the outcome of an external call (an RPC, a random draw, a download) is an
  argument of the function making it;
* the metrics objects of `go-metrics-reporting` are modelled by what the
  program does to them: a timer by the number of updates it received, a
  meter by the sum of its marks, a gauge by the last value written;
* log output is not part of the state.
-/

namespace Quiver

/-! ## Go strings -/

/-- A Go string: a finite sequence of bytes. -/
abbrev GoString := List UInt8

/-- The bytes of a string literal (all literals of the source are ASCII). -/
def lit (s : String) : GoString := s.toList.map (fun c => UInt8.ofNat c.toNat)

/-- The byte of an ASCII character. -/
def byte (c : Char) : UInt8 := UInt8.ofNat c.toNat

/-- Go: `strings.HasPrefix(s, p)`. -/
def HasPrefix (s p : GoString) : Bool := p.isPrefixOf s

/-- Go: `strings.TrimPrefix(s, p)`: `s[len(p):]` when `s` starts with `p`,
otherwise `s`. -/
def TrimPrefix (s p : GoString) : GoString :=
  if HasPrefix s p then s.drop p.length else s

/-- Go: `strings.Contains(s, sub)` for a one-byte `sub`. -/
def ContainsByte (s : GoString) (b : UInt8) : Bool := s.contains b

/-- Go: `strings.Split(s, sep)` for a one-byte `sep`: the pieces of `s`
between the occurrences of `sep`; never empty. -/
def Split (sep : UInt8) : GoString → List GoString
  | [] => [[]]
  | c :: cs =>
    if c = sep then [] :: Split sep cs
    else
      match Split sep cs with
      | [] => [[c]]
      | p :: ps => (c :: p) :: ps

/-- Go: `strings.NewReplacer(pairs...).Replace(s)` for non-empty old strings.
At each position the old strings are compared in argument order; the first
that matches is replaced and the scan resumes after it, otherwise the byte is
copied. `skip` counts the bytes of a match still to be passed over. -/
def replaceFrom (pairs : List (GoString × GoString)) : Nat → GoString → GoString
  | _, [] => []
  | skip + 1, _ :: rest => replaceFrom pairs skip rest
  | 0, c :: rest =>
    match pairs.find? (fun p => p.1.isPrefixOf (c :: rest)) with
    | some p => p.2 ++ replaceFrom pairs (p.1.length - 1) rest
    | none => c :: replaceFrom pairs 0 rest

/-- Go: `strings.NewReplacer(pairs...).Replace(s)`. -/
def Replace (pairs : List (GoString × GoString)) (s : GoString) : GoString :=
  replaceFrom pairs 0 s

/-! ## `cmd/load/load.go` -/

/-- Go: `hfileUrlAndName`. -/
def hfileUrlAndName (s : GoString) : GoString × GoString :=
  let name := Replace [(lit "http://", lit ""), (lit ".", lit "_"),
    (lit ":", lit "_"), (lit "/", lit "_")] s
  let parts := Split (byte '=') s
  let s1 := if 1 < parts.length then parts.getD 1 [] else s
  let name1 := if 1 < parts.length then parts.getD 0 [] else name
  let s2 := if !ContainsByte s1 (byte '/') then s1 ++ lit "/rpc/HFileService" else s1
  let s3 := if !HasPrefix s2 (lit "http") then lit "http://" ++ s2 else s2
  (s3, name1)

/-- A sample key: `[]byte`. -/
abbrev Key := List UInt8

/-- Go: `chan bool` with a buffer: the buffered permits, oldest first, and
the capacity fixed by `make`. -/
structure Chan where
  buf : List Bool
  cap : Nat
  deriving DecidableEq, Repr

/-- Go: `type Load struct`, the fields the program reads and writes after
start-up. `rtt` and `diffRtt` count the updates of the two timers, `diffs`
and `dropped` are the totals of the two meters, `queueSize` is the gauge. -/
structure Load where
  collection : GoString
  keys : List Key
  diff : Option GoString
  work : Chan
  rtt : Nat
  diffRtt : Nat
  diffs : Nat
  dropped : Nat
  queueSize : Int
  deriving DecidableEq, Repr

/-- Go: `gen.HFileInfo`, an entry of the answer of `GetInfo`; only
`RandomKeys` is read. -/
structure HFileInfo where
  RandomKeys : List Key
  deriving DecidableEq, Repr

/-- The Go value `(resp, err)` returned by `c.GetInfo(r)`; `err = none` is
`err == nil`. -/
structure InfoResult (E : Type) where
  resp : List HFileInfo
  err : Option E

/-- The errors `setKeys` returns: the error of the call, handed on as it
is, or `fmt.Errorf("Response (len %d) contained no keys!", len(resp))`. -/
inductive SetKeysError (E : Type) where
  | rpc (e : E)
  | noKeys (len : Nat)
  deriving DecidableEq, Repr

/-- Go: `(*Load).setKeys`, given the outcome `res` of `c.GetInfo(r)`. Returns
the state afterwards and the returned error (`none` for `nil`). The test
`len(resp) < 1 || len(resp[0].RandomKeys) < 1` is the match on `res.resp`. -/
def setKeys {E : Type} (l : Load) (res : InfoResult E) :
    Load × Option (SetKeysError E) :=
  match res.err with
  | some e => (l, some (.rpc e))
  | none =>
    match res.resp with
    | [] => (l, some (.noKeys res.resp.length))
    | first :: _ =>
      if first.RandomKeys.length < 1 then (l, some (.noKeys res.resp.length))
      else ({ l with keys := first.RandomKeys }, none)

/-- Go: `(*Load).startKeyFetcher`: one `setKeys` per tick of the timer, the
returned error dropped. `results` are the outcomes of the successive
`GetInfo` calls. -/
def startKeyFetcher {E : Type} (l : Load) (results : List (InfoResult E)) : Load :=
  results.foldl (fun s res => (setKeys s res).1) l

/-- Go: the body of the loop of `(*Load).generator`, one tick: the gauge
takes `len(l.work)`, then the `select` sends a permit when the buffer has
room and marks a drop otherwise. The send case is ready exactly when the
buffer has room; a channel of capacity 0 has no receiver waiting on it
here, so every tick on it is a drop. -/
def generatorTick (l : Load) : Load :=
  let l1 := { l with queueSize := (l.work.buf.length : Int) }
  if l1.work.buf.length < l1.work.cap then
    { l1 with work := { l1.work with buf := l1.work.buf ++ [true] } }
  else
    { l1 with dropped := l1.dropped + 1 }

/-- Go: `<-l.work` in a worker: takes the oldest permit; on an empty buffer
the worker stays blocked and nothing changes. -/
def dequeue (l : Load) : Load :=
  match l.work.buf with
  | [] => l
  | _ :: rest => { l with work := { l.work with buf := rest } }

/-- What happens on the work queue: a tick of the generator or a receive of
a worker. A permit handed to a worker that waits on the empty buffer is a
tick followed by a receive. -/
inductive QueueEvent where
  | tick
  | recv
  deriving DecidableEq, Repr

/-- The state after an event on the queue. -/
def queueStep (l : Load) : QueueEvent → Load
  | .tick => generatorTick l
  | .recv => dequeue l

/-- The state after a finite sequence of events on the queue. -/
def queueRun (l : Load) (evs : List QueueEvent) : Load :=
  evs.foldl queueStep l

/-- The number of ticks of a run whose `select` took the send case. -/
def enqueues : Load → List QueueEvent → Nat
  | _, [] => 0
  | l, .tick :: evs =>
    (if l.work.buf.length < l.work.cap then 1 else 0) + enqueues (generatorTick l) evs
  | l, .recv :: evs => enqueues (dequeue l) evs

/-- The number of ticks of a run. -/
def ticks (evs : List QueueEvent) : Nat := evs.count .tick

/-- Go: `rand.Intn(n)`: panics for `n <= 0`, otherwise yields the drawn
value `outcome`, which the library takes from `[0, n)`. -/
def Intn (n : Nat) (outcome : Nat) : Option Nat :=
  if n = 0 then none else some outcome

/-- Go: the first loop of `randomKeys`: `indexes[i] = rand.Intn(len(l.keys))`
`count` times from draw `i` on; `rnd i` is the outcome of draw `i`. -/
def drawIndexes (len : Nat) (rnd : Nat → Nat) : Nat → Nat → Option (List Nat)
  | _, 0 => some []
  | i, count + 1 =>
    match Intn len (rnd i) with
    | none => none
    | some x => (drawIndexes len rnd (i + 1) count).map (x :: ·)

/-- Go: the second loop of `randomKeys`: `out[i] = l.keys[indexes[i]]`; an
index outside the slice panics. -/
def pickKeys (keys : List Key) : List Nat → Option (List Key)
  | [] => some []
  | i :: is =>
    match keys[i]? with
    | none => none
    | some k => (pickKeys keys is).map (k :: ·)

/-- Go: `(*Load).randomKeys(count)`; `sort.Ints` is the ascending sort. -/
def randomKeys (l : Load) (count : Nat) (rnd : Nat → Nat) : Option (List Key) :=
  match drawIndexes l.keys.length rnd 0 count with
  | none => none
  | some indexes => pickKeys l.keys (indexes.insertionSort (· ≤ ·))

/-- Go: `gen.SingleHFileKeyRequest`. -/
structure Request where
  HfileName : GoString
  SortedKeys : List Key
  deriving DecidableEq, Repr

/-- The Go value `(resp, err)` returned by `GetValuesSingle`: `resp` is a
pointer, `none` being `nil`; `err = none` is `err == nil`. -/
structure CallResult (Resp E : Type) where
  resp : Option Resp
  err : Option E

/-- Go: `*gen.HFileServiceClient`, by what it answers to a request. -/
abbrev Client (Resp E : Type) := Request → CallResult Resp E

/-- What a send does besides changing the metrics, in the order of the
program: the calls issued, the comparison, the lines logged. -/
inductive Action where
  | callPrimary
  | callDiff
  | logError
  | deepEqual
  | logDiff
  deriving DecidableEq, Repr

/-- Go: `(*Load).sendSingle(client, diff)`; `diff = none` is the `nil`
client. `reflect.DeepEqual` on the two response pointers is equality of
`Option Resp`, the equality of `Resp` being deep equality of the pointed
structs. Returns the state afterwards and what was done; `none` is the panic
of `randomKeys`. The `[DIFF]` record is the action `logDiff`: what the send
has done to the metrics is settled when it gets there. Whether the record
gets written, and the send returns, is in `sendSingleRun`. -/
def sendSingle {Resp E : Type} [DecidableEq Resp] (l : Load) (rnd : Nat → Nat)
    (client : Client Resp E) (diff : Option (Client Resp E)) :
    Option (Load × List Action) :=
  match randomKeys l 1 rnd with
  | none => none
  | some sortedKeys =>
    let r : Request := { HfileName := l.collection, SortedKeys := sortedKeys }
    let res := client r
    let acts1 := [Action.callPrimary] ++ (if res.err.isSome then [Action.logError] else [])
    let l1 := { l with rtt := l.rtt + 1 }
    match diff with
    | none => some (l1, acts1)
    | some d =>
      let dres := d r
      let acts2 := acts1 ++ [Action.callDiff] ++
        (if dres.err.isSome then [Action.logError] else [])
      let l2 := { l1 with diffRtt := l1.diffRtt + 1 }
      if res.resp ≠ dres.resp then
        some ({ l2 with diffs := l2.diffs + 1 }, acts2 ++ [Action.deepEqual, Action.logDiff])
      else
        some (l2, acts2 ++ [Action.deepEqual])

/-- How a piece of the program ends: it returns, or it panics; either way
with the state reached and what was done until then. -/
inductive Outcome (α : Type) where
  | returned (a : α)
  | panicked (a : α)
  deriving DecidableEq, Repr

/-- Go: the arguments of the `[DIFF]` record of `sendSingle`,
`resp.GetKeyCount()` and then `diffResp.GetKeyCount()`. The getter belongs to
the package `gen`, which is not among the sources: what it does on a response
pointer, `nil` included, is the parameter `GetKeyCount`, `none` being a
panic. The record is written when both calls return. -/
def diffRecord {Resp : Type} (GetKeyCount : Option Resp → Option Int)
    (resp diffResp : Option Resp) : Option Unit :=
  match GetKeyCount resp with
  | none => none
  | some _ =>
    match GetKeyCount diffResp with
    | none => none
    | some _ => some ()

/-- Go: `(*Load).sendSingle(client, diff)` to its end, the `[DIFF]` record
with its two `GetKeyCount` calls included. A panic of `randomKeys` ends the
send before anything is done; a panic in the record ends it after the mark of
the diff meter, with nothing logged. -/
def sendSingleRun {Resp E : Type} [DecidableEq Resp] (GetKeyCount : Option Resp → Option Int)
    (l : Load) (rnd : Nat → Nat) (client : Client Resp E) (diff : Option (Client Resp E)) :
    Outcome (Load × List Action) :=
  match randomKeys l 1 rnd with
  | none => .panicked (l, [])
  | some sortedKeys =>
    let r : Request := { HfileName := l.collection, SortedKeys := sortedKeys }
    let res := client r
    let acts1 := [Action.callPrimary] ++ (if res.err.isSome then [Action.logError] else [])
    let l1 := { l with rtt := l.rtt + 1 }
    match diff with
    | none => .returned (l1, acts1)
    | some d =>
      let dres := d r
      let acts2 := acts1 ++ [Action.callDiff] ++
        (if dres.err.isSome then [Action.logError] else [])
      let l2 := { l1 with diffRtt := l1.diffRtt + 1 }
      if res.resp ≠ dres.resp then
        match diffRecord GetKeyCount res.resp dres.resp with
        | some _ =>
          .returned ({ l2 with diffs := l2.diffs + 1 },
            acts2 ++ [Action.deepEqual, Action.logDiff])
        | none => .panicked ({ l2 with diffs := l2.diffs + 1 }, acts2 ++ [Action.deepEqual])
      else
        .returned (l2, acts2 ++ [Action.deepEqual])

/-- Go: `(*Load).sendOne`. -/
def sendOne {Resp E : Type} [DecidableEq Resp] (GetKeyCount : Option Resp → Option Int)
    (l : Load) (rnd : Nat → Nat) (client : Client Resp E) (diff : Option (Client Resp E)) :
    Outcome (Load × List Action) :=
  sendSingleRun GetKeyCount l rnd client diff

/-- Go: the diff client of a worker in `startWorkers`: dialled when
`l.diff != nil && len(*l.diff) > 0`, otherwise `nil`. `dial` is
`thttp.NewThriftHttpRpcClient`. -/
def workerDiff {Resp E : Type} (l : Load) (dial : GoString → Client Resp E) :
    Option (Client Resp E) :=
  match l.diff with
  | none => none
  | some url => if 0 < url.length then some (dial url) else none

/-- Go: one round of the loop of a worker in `startWorkers`: `<-l.work`,
then `l.sendOne(client, diff)`. On an empty buffer the worker stays blocked
and there is no round: `none`. After a round that returned the worker is back
at `<-l.work`. -/
def workerStep {Resp E : Type} [DecidableEq Resp] (GetKeyCount : Option Resp → Option Int)
    (l : Load) (rnd : Nat → Nat) (client : Client Resp E) (diff : Option (Client Resp E)) :
    Option (Outcome (Load × List Action)) :=
  match l.work.buf with
  | [] => none
  | _ :: _ => some (sendOne GetKeyCount (dequeue l) rnd client diff)

/-- Go `int` on a 64-bit platform: the two's-complement value of `z`. -/
def wrapInt (z : Int) : Int := (z + 2 ^ 63) % 2 ^ 64 - 2 ^ 63

/-- Go: `make(chan bool, size)`: panics for a negative size, otherwise an
empty channel of that capacity. The memory the runtime can allocate is not
bounded here. -/
def makeChan (size : Int) : Option Chan :=
  if size < 0 then none else some { buf := [], cap := size.toNat }

/-- Go: the `work` field built in `main`:
`make(chan bool, (*qps)*(*workers))`. -/
def mainWork (qps workers : Int) : Option Chan :=
  makeChan (wrapInt (qps * workers))

/-- Go: the `Load` literal of `main`: no keys yet, fresh metrics. -/
def newLoad (collection : GoString) (diff : Option GoString) (work : Chan) : Load :=
  { collection := collection, keys := [], diff := diff, work := work,
    rtt := 0, diffRtt := 0, diffs := 0, dropped := 0, queueSize := 0 }

/-- Go: `main` from the `Load` literal to the test of the bootstrap
`setKeys`: the state the workers, the key fetcher and the generator start
from. `none` is a panic of `make` or `os.Exit(1)` after a failed bootstrap. -/
def mainInit {E : Type} (collection : GoString) (diff : Option GoString)
    (qps workers : Int) (bootstrap : InfoResult E) : Option Load :=
  match mainWork qps workers with
  | none => none
  | some work =>
    match setKeys (newLoad collection diff work) bootstrap with
    | (_, some _) => none
    | (l1, none) => some l1

/-! ## `fetch.go` -/

/-- Go: the fields of the package variable `Settings` that `fetch.go`
reads. -/
structure SettingsT where
  hdfsPathPrefix : GoString
  hdfsCachePath : GoString
  debug : Bool

/-- Go: `hfile.CollectionConfig`. -/
structure CollectionConfig where
  Name : GoString
  Path : GoString
  Mlock : Bool
  deriving DecidableEq, Repr

/-- Go: `IsHdfs`. -/
def IsHdfs (Settings : SettingsT) (p : GoString) : Bool × GoString :=
  if 1 < Settings.hdfsPathPrefix.length ∧ HasPrefix p Settings.hdfsPathPrefix then
    (true, TrimPrefix p Settings.hdfsPathPrefix)
  else
    (false, p)

/-- Go: `FetchCollections`; `FetchFromHdfs name hdfs` is the outcome of the
download, a local path or an error. The first error ends the loop. -/
def FetchCollections {E : Type} (Settings : SettingsT)
    (FetchFromHdfs : GoString → GoString → Except E GoString) :
    List CollectionConfig → Except E (List CollectionConfig)
  | [] => .ok []
  | cfg :: rest =>
    match IsHdfs Settings cfg.Path with
    | (true, trimmed) =>
      match FetchFromHdfs cfg.Name trimmed with
      | .error err => .error err
      | .ok localPath =>
        match FetchCollections Settings FetchFromHdfs rest with
        | .error err => .error err
        | .ok fetched => .ok ({ cfg with Path := localPath } :: fetched)
    | (false, _) =>
      match FetchCollections Settings FetchFromHdfs rest with
      | .error err => .error err
      | .ok fetched => .ok (cfg :: fetched)

/-! ## Predicates of the statements and inputs they are tried on -/

/-- The number of receives of a run that took a permit. -/
def dequeues : Load → List QueueEvent → Nat
  | _, [] => 0
  | l, .tick :: evs => dequeues (generatorTick l) evs
  | l, .recv :: evs => (if l.work.buf = [] then 0 else 1) + dequeues (dequeue l) evs

/-- The state `generatorTick` is tried on: a queue of capacity 2 holding one
permit. -/
def demoLoad : Load :=
  { collection := lit "testdata", keys := [lit "k0", lit "k1", lit "k2"], diff := none,
    work := { buf := [true], cap := 2 },
    rtt := 0, diffRtt := 0, diffs := 0, dropped := 0, queueSize := 0 }

/-- The key-listing call gave nothing to store: it failed, or answered with
no entry, or the first entry of its answer has no keys. -/
def nothingListed {E : Type} (res : InfoResult E) : Prop :=
  res.err.isSome ∨ res.resp = [] ∨
    ∃ first rest, res.resp = first :: rest ∧ first.RandomKeys = []

/-- The draws `randomKeys` is tried on: 2, 1, 0, 2, 1, 0, ... -/
def demoDraws (i : Nat) : Nat := (2 * i + 2) % 3

/-- An answer of `GetInfo` with two keys. -/
def demoListing : InfoResult Unit :=
  { resp := [{ RandomKeys := [lit "a", lit "b"] }], err := none }

/-- An answer of `GetInfo` with no entry. -/
def demoEmptyListing : InfoResult Unit := { resp := [], err := none }

/-- A failed `GetInfo`. -/
def demoFailedListing : InfoResult Unit := { resp := [], err := some () }

/-- A target whose call fails: no response, an error. -/
def failingClient : Client Nat Unit := fun _ => { resp := none, err := some () }

/-- A target that answers every request with the response `v`. -/
def answeringClient (v : Nat) : Client Nat Unit := fun _ => { resp := some v, err := none }

/-- A `GetKeyCount` that panics on the `nil` response and returns the
response itself otherwise. -/
def getterNilPanics : Option Nat → Option Int := fun r => r.map (fun v => (v : Int))

/-- A `GetKeyCount` that returns 0 on the `nil` response. -/
def getterNilZero : Option Nat → Option Int := fun r => some ((r.map (fun v => (v : Int))).getD 0)

/-- The settings `IsHdfs` is tried on: the remote prefix `/hdfs`. -/
def demoSettings : SettingsT :=
  { hdfsPathPrefix := lit "/hdfs", hdfsCachePath := lit "/tmp", debug := false }

/-! ## The work queue -/

theorem generatorTick_cap (l : Load) : (generatorTick l).work.cap = l.work.cap := by
  unfold generatorTick
  dsimp only
  split <;> rfl

theorem generatorTick_room (l : Load) (h : l.work.buf.length < l.work.cap) :
    (generatorTick l).work.buf = l.work.buf ++ [true] ∧
      (generatorTick l).dropped = l.dropped := by
  unfold generatorTick
  dsimp only
  rw [if_pos h]
  exact ⟨rfl, rfl⟩

theorem generatorTick_full (l : Load) (h : ¬ l.work.buf.length < l.work.cap) :
    (generatorTick l).work.buf = l.work.buf ∧
      (generatorTick l).dropped = l.dropped + 1 := by
  unfold generatorTick
  dsimp only
  rw [if_neg h]
  exact ⟨rfl, rfl⟩

theorem dequeue_cap (l : Load) : (dequeue l).work.cap = l.work.cap := by
  unfold dequeue
  split <;> rfl

theorem dequeue_dropped (l : Load) : (dequeue l).dropped = l.dropped := by
  unfold dequeue
  split <;> rfl

theorem dequeue_length (l : Load) :
    (dequeue l).work.buf.length + (if l.work.buf = [] then 0 else 1)
      = l.work.buf.length := by
  unfold dequeue
  split
  · next h => simp [h]
  · next h => simp [h]

theorem queueRun_cons (l : Load) (e : QueueEvent) (evs : List QueueEvent) :
    queueRun l (e :: evs) = queueRun (queueStep l e) evs := rfl

theorem queueRun_cap (l : Load) (evs : List QueueEvent) :
    (queueRun l evs).work.cap = l.work.cap := by
  induction evs generalizing l with
  | nil => rfl
  | cons e evs ih =>
    rw [queueRun_cons, ih]
    cases e
    · exact generatorTick_cap l
    · exact dequeue_cap l

/-- The accounting of a run: occupancy stays within the capacity, every tick
is an enqueue or a drop, and the buffer holds what was enqueued and not yet
received. -/
theorem queueRun_accounting (l : Load) (evs : List QueueEvent)
    (h : l.work.buf.length ≤ l.work.cap) :
    (queueRun l evs).work.buf.length ≤ l.work.cap ∧
      l.dropped + ticks evs = enqueues l evs + (queueRun l evs).dropped ∧
      (queueRun l evs).work.buf.length + dequeues l evs
        = l.work.buf.length + enqueues l evs := by
  induction evs generalizing l with
  | nil => exact ⟨h, by simp [ticks, enqueues, queueRun], by simp [dequeues, enqueues, queueRun]⟩
  | cons e evs ih =>
    cases e with
    | tick =>
      have hc := generatorTick_cap l
      by_cases hq : l.work.buf.length < l.work.cap
      · obtain ⟨hb, hd⟩ := generatorTick_room l hq
        have hlen : (generatorTick l).work.buf.length = l.work.buf.length + 1 := by
          rw [hb]; simp
        obtain ⟨h1, h2, h3⟩ := ih (generatorTick l) (by rw [hc, hlen]; omega)
        rw [hc] at h1
        rw [hd] at h2
        rw [hlen] at h3
        refine ⟨h1, ?_, ?_⟩
        · simp only [ticks, List.count_cons_self, enqueues, if_pos hq, queueRun_cons,
            queueStep] at h2 ⊢
          omega
        · simp only [dequeues, enqueues, if_pos hq, queueRun_cons, queueStep]
          omega
      · obtain ⟨hb, hd⟩ := generatorTick_full l hq
        have hlen : (generatorTick l).work.buf.length = l.work.buf.length := by rw [hb]
        obtain ⟨h1, h2, h3⟩ := ih (generatorTick l) (by rw [hc, hlen]; exact h)
        rw [hc] at h1
        rw [hd] at h2
        rw [hlen] at h3
        refine ⟨h1, ?_, ?_⟩
        · simp only [ticks, List.count_cons_self, enqueues, if_neg hq, queueRun_cons,
            queueStep] at h2 ⊢
          omega
        · simp only [dequeues, enqueues, if_neg hq, queueRun_cons, queueStep]
          omega
    | recv =>
      have hc := dequeue_cap l
      have hd := dequeue_dropped l
      have hlen := dequeue_length l
      obtain ⟨h1, h2, h3⟩ := ih (dequeue l) (by rw [hc]; omega)
      rw [hc] at h1
      rw [hd] at h2
      refine ⟨h1, ?_, ?_⟩
      · have : ticks (QueueEvent.recv :: evs) = ticks evs := by
          simp [ticks]
        rw [this]
        simpa only [enqueues, queueRun_cons, queueStep] using h2
      · simp only [dequeues, enqueues, queueRun_cons, queueStep]
        omega

/-- C1. One tick of the generator on a queue of capacity `C` holding
`q ≤ C` permits, with `d` drops so far: when `q < C` the occupancy becomes
`q + 1` and the drops stay `d`; when `q = C` the occupancy stays `q` and the
drops become `d + 1`; exactly one of the two happens (the occupancy and the
drop counter never both change, and never both stay). Hence over every finite
sequence of ticks and worker receives the number of ticks is the number of
enqueues plus the number of drops, the occupancy stays at most `C`, and the
buffer holds what was enqueued and not yet received. -/
theorem generator_tick_enqueues_or_drops (l : Load)
    (h : l.work.buf.length ≤ l.work.cap) :
    ((l.work.buf.length < l.work.cap ∧
        (generatorTick l).work.buf.length = l.work.buf.length + 1 ∧
        (generatorTick l).dropped = l.dropped) ∨
      (l.work.buf.length = l.work.cap ∧
        (generatorTick l).work.buf.length = l.work.buf.length ∧
        (generatorTick l).dropped = l.dropped + 1)) ∧
    ¬ ((generatorTick l).work.buf.length = l.work.buf.length + 1 ∧
        (generatorTick l).dropped = l.dropped + 1) ∧
    ¬ ((generatorTick l).work.buf.length = l.work.buf.length ∧
        (generatorTick l).dropped = l.dropped) ∧
    (generatorTick l).work.cap = l.work.cap ∧
    ∀ evs : List QueueEvent,
      (queueRun l evs).work.buf.length ≤ l.work.cap ∧
      (queueRun l evs).work.cap = l.work.cap ∧
      l.dropped + ticks evs = enqueues l evs + (queueRun l evs).dropped ∧
      (queueRun l evs).work.buf.length + dequeues l evs
        = l.work.buf.length + enqueues l evs := by
  refine ⟨?_, ?_, ?_, generatorTick_cap l, ?_⟩
  · by_cases hq : l.work.buf.length < l.work.cap
    · obtain ⟨hb, hd⟩ := generatorTick_room l hq
      exact Or.inl ⟨hq, by rw [hb]; simp, hd⟩
    · obtain ⟨hb, hd⟩ := generatorTick_full l hq
      exact Or.inr ⟨by omega, by rw [hb], hd⟩
  · by_cases hq : l.work.buf.length < l.work.cap
    · obtain ⟨_, hd⟩ := generatorTick_room l hq
      rw [hd]; omega
    · obtain ⟨hb, _⟩ := generatorTick_full l hq
      rw [hb]; omega
  · by_cases hq : l.work.buf.length < l.work.cap
    · obtain ⟨hb, _⟩ := generatorTick_room l hq
      rw [hb]; simp
    · obtain ⟨_, hd⟩ := generatorTick_full l hq
      rw [hd]; omega
  · intro evs
    obtain ⟨h1, h2, h3⟩ := queueRun_accounting l evs h
    exact ⟨h1, queueRun_cap l evs, h2, h3⟩

/-- C1 at a queue of capacity 2 holding one permit: the tick enqueues, and no
run takes the occupancy above 2. -/
theorem generator_tick_enqueues_or_drops_witness :
    demoLoad.work.buf.length ≤ demoLoad.work.cap ∧
      (generatorTick demoLoad).work.buf.length = 2 ∧
      (generatorTick demoLoad).dropped = 0 ∧
      (generatorTick (generatorTick demoLoad)).dropped = 1 ∧
      ∀ evs : List QueueEvent,
        (queueRun demoLoad evs).work.buf.length ≤ 2 ∧
        ticks evs = enqueues demoLoad evs + (queueRun demoLoad evs).dropped := by
  refine ⟨by decide, by decide, by decide, by decide, fun evs => ?_⟩
  have h := (generator_tick_enqueues_or_drops demoLoad (by decide)).2.2.2.2 evs
  refine ⟨h.1, ?_⟩
  have h2 := h.2.2.1
  have hd : demoLoad.dropped = 0 := rfl
  rw [hd] at h2
  omega

/-- The state after `k` ticks with no receive: the buffer fills up to the
capacity and every tick after that is a drop. -/
theorem ticks_only (l : Load) (k : Nat) (h : l.work.buf.length ≤ l.work.cap) :
    (queueRun l (List.replicate k QueueEvent.tick)).work.buf.length
        = min (l.work.buf.length + k) l.work.cap ∧
      (queueRun l (List.replicate k QueueEvent.tick)).dropped
        = l.dropped + (l.work.buf.length + k - min (l.work.buf.length + k) l.work.cap) := by
  induction k generalizing l with
  | zero =>
    simp only [List.replicate_zero, queueRun, List.foldl_nil, Nat.add_zero]
    omega
  | succ k ih =>
    rw [List.replicate_succ, queueRun_cons]
    have hc := generatorTick_cap l
    by_cases hq : l.work.buf.length < l.work.cap
    · obtain ⟨hb, hd⟩ := generatorTick_room l hq
      have hlen : (generatorTick l).work.buf.length = l.work.buf.length + 1 := by
        rw [hb]; simp
      obtain ⟨h1, h2⟩ := ih (generatorTick l) (by rw [hc, hlen]; omega)
      rw [hc, hlen] at h1
      rw [hc, hlen, hd] at h2
      simp only [queueStep]
      omega
    · obtain ⟨hb, hd⟩ := generatorTick_full l hq
      have hlen : (generatorTick l).work.buf.length = l.work.buf.length := by rw [hb]
      obtain ⟨h1, h2⟩ := ih (generatorTick l) (by rw [hc, hlen]; exact h)
      rw [hc, hlen] at h1
      rw [hc, hlen, hd] at h2
      simp only [queueStep]
      omega

theorem wrapInt_of_fits (z : Int) (h0 : 0 ≤ z) (h1 : z < 2 ^ 63) : wrapInt z = z := by
  unfold wrapInt
  norm_num at h1 ⊢
  omega

/-- C7, where the claim fails: rate 4 and `2^62` workers are both at least 1
and both Go `int`s, their product wraps to 0, and the queue is made with
capacity 0, not `4 * 2^62`; on that queue the first tick is already a drop,
where the claim has occupancy `min 1 (R*N) = 1` and no drop. -/
theorem mainWork_capacity_overflow :
    (1 : Int) ≤ 4 ∧ (1 : Int) ≤ 2 ^ 62 ∧ (2 : Int) ^ 62 < 2 ^ 63 ∧
      mainWork 4 (2 ^ 62) = some { buf := [], cap := 0 } ∧
      ((0 : Nat) : Int) ≠ 4 * 2 ^ 62 ∧
      (generatorTick { demoLoad with work := { buf := [], cap := 0 } }).work.buf.length = 0 ∧
      (generatorTick { demoLoad with work := { buf := [], cap := 0 } }).dropped = 1 := by
  refine ⟨by decide, by decide, by decide, ?_, by decide, by decide, by decide⟩
  decide

/-- C7, amended. For every rate `R ≥ 1` and worker count `N ≥ 1` whose
product fits a Go `int` (`R * N < 2^63`), `main` makes the work queue empty
and with capacity exactly `R * N`; and from a state with that queue, after `k`
ticks of the generator and no receive, the occupancy is `min k (R*N)` and the
drop counter has grown by `k - min k (R*N)`. -/
theorem mainWork_capacity (R N : Int) (hR : 1 ≤ R) (hN : 1 ≤ N)
    (hfit : R * N < 2 ^ 63) :
    ∃ ch : Chan, mainWork R N = some ch ∧ ch.buf = [] ∧ (ch.cap : Int) = R * N ∧
      ∀ (l : Load) (k : Nat), l.work = ch →
        (queueRun l (List.replicate k QueueEvent.tick)).work.buf.length = min k ch.cap ∧
        (queueRun l (List.replicate k QueueEvent.tick)).dropped
          = l.dropped + (k - min k ch.cap) := by
  have hpos : 0 ≤ R * N := by positivity
  refine ⟨{ buf := [], cap := (R * N).toNat }, ?_, rfl, Int.toNat_of_nonneg hpos, ?_⟩
  · unfold mainWork makeChan
    rw [wrapInt_of_fits _ hpos hfit, if_neg (by omega)]
  · intro l k hl
    have hb : l.work.buf.length = 0 := by rw [hl]; rfl
    have hcap : l.work.cap = (R * N).toNat := by rw [hl]
    obtain ⟨h1, h2⟩ := ticks_only l k (by omega)
    rw [hb, hcap] at h1 h2
    simp only [Nat.zero_add] at h1 h2
    exact ⟨h1, h2⟩

/-- C7 at rate 10 and 2 workers: the queue has capacity 20, holds `min k 20`
permits after `k` ticks with no receive, is full after 20 ticks, and each of
the `j` ticks after that adds one drop. -/
theorem mainWork_capacity_witness :
    (1 : Int) ≤ 10 ∧ (1 : Int) ≤ 2 ∧ (10 : Int) * 2 < 2 ^ 63 ∧
      mainWork 10 2 = some { buf := [], cap := 20 } ∧
      ∀ (l : Load), l.work = { buf := [], cap := 20 } →
        (∀ k : Nat,
          (queueRun l (List.replicate k QueueEvent.tick)).work.buf.length = min k 20) ∧
        ∀ j : Nat,
          (queueRun l (List.replicate (20 + j) QueueEvent.tick)).work.buf.length = 20 ∧
          (queueRun l (List.replicate (20 + j) QueueEvent.tick)).dropped = l.dropped + j := by
  obtain ⟨ch, hch, _, _, hrun⟩ := mainWork_capacity 10 2 (by decide) (by decide) (by decide)
  have hmk : mainWork 10 2 = some { buf := [], cap := 20 } := by decide
  have hc : ch = { buf := [], cap := 20 } := by
    rw [hmk] at hch
    exact (Option.some.inj hch).symm
  subst hc
  refine ⟨by decide, by decide, by decide, hmk, fun l hl => ⟨fun k => (hrun l k hl).1, fun j => ?_⟩⟩
  obtain ⟨h1, h2⟩ := hrun l (20 + j) hl
  simp only at h1 h2
  constructor
  · rw [h1]; omega
  · rw [h2]; omega

/-! ## The key snapshot -/

theorem setKeys_of_nothingListed {E : Type} (l : Load) (res : InfoResult E)
    (h : nothingListed res) : (setKeys l res).1 = l ∧ (setKeys l res).2.isSome := by
  unfold setKeys
  rcases h with h | h | ⟨first, rest, h, hk⟩
  · cases he : res.err with
    | none => rw [he] at h; exact absurd h (by simp)
    | some e => exact ⟨rfl, rfl⟩
  · cases he : res.err with
    | some e => exact ⟨rfl, rfl⟩
    | none => simp [h]
  · cases he : res.err with
    | some e => exact ⟨rfl, rfl⟩
    | none =>
      simp only [h]
      rw [if_pos (by rw [hk]; decide)]
      exact ⟨rfl, rfl⟩

theorem setKeys_of_listed {E : Type} (l : Load) (res : InfoResult E)
    (h : ¬ nothingListed res) :
    (setKeys l res).2 = none ∧
      ∃ first rest, res.resp = first :: rest ∧ first.RandomKeys ≠ [] ∧
        (setKeys l res).1 = { l with keys := first.RandomKeys } := by
  unfold nothingListed at h
  push_neg at h
  obtain ⟨h1, h2, h3⟩ := h
  cases he : res.err with
  | some e => rw [he] at h1; exact absurd rfl h1
  | none =>
    cases hr : res.resp with
    | nil => exact absurd hr h2
    | cons first rest =>
      have hk : first.RandomKeys ≠ [] := h3 first rest hr
      have hlen : ¬ first.RandomKeys.length < 1 := by
        have := List.length_pos.mpr hk
        omega
      unfold setKeys
      simp only [he, hr]
      rw [if_neg hlen]
      exact ⟨rfl, first, rest, rfl, hk, rfl⟩

/-- C3. `setKeys` returns an error and leaves the stored keys unchanged if
and only if the key-listing call failed, or its answer is empty, or the first
entry of the answer has no keys, and then the whole state is unchanged;
otherwise it returns no error, the stored keys become exactly the key list of
the first entry, and nothing else changes. -/
theorem setKeys_error_iff_nothing_listed {E : Type} (l : Load) (res : InfoResult E) :
    (((setKeys l res).2.isSome ∧ (setKeys l res).1.keys = l.keys) ↔ nothingListed res) ∧
    ((nothingListed res ∧ (setKeys l res).2.isSome ∧ (setKeys l res).1 = l) ∨
      (¬ nothingListed res ∧ (setKeys l res).2 = none ∧
        ∃ first rest, res.resp = first :: rest ∧
          (setKeys l res).1 = { l with keys := first.RandomKeys })) := by
  by_cases h : nothingListed res
  · obtain ⟨h1, h2⟩ := setKeys_of_nothingListed l res h
    refine ⟨⟨fun _ => h, fun _ => ⟨h2, by rw [h1]⟩⟩, Or.inl ⟨h, h2, h1⟩⟩
  · obtain ⟨h1, first, rest, hr, _, hs⟩ := setKeys_of_listed l res h
    refine ⟨⟨fun hx => ?_, fun hx => absurd hx h⟩, Or.inr ⟨h, h1, first, rest, hr, hs⟩⟩
    rw [h1] at hx
    exact absurd hx.1 (by simp)

theorem setKeys_keys_ne_nil {E : Type} (l : Load) (res : InfoResult E)
    (h : l.keys ≠ []) : (setKeys l res).1.keys ≠ [] := by
  by_cases hn : nothingListed res
  · rw [(setKeys_of_nothingListed l res hn).1]; exact h
  · obtain ⟨_, first, rest, _, hk, hs⟩ := setKeys_of_listed l res hn
    rw [hs]; exact hk

theorem startKeyFetcher_keys_ne_nil {E : Type} (l : Load) (results : List (InfoResult E))
    (h : l.keys ≠ []) : (startKeyFetcher l results).keys ≠ [] := by
  induction results generalizing l with
  | nil => exact h
  | cons res results ih => exact ih (setKeys l res).1 (setKeys_keys_ne_nil l res h)

theorem drawIndexes_eq (len : Nat) (rnd : Nat → Nat) (h : len ≠ 0) (i count : Nat) :
    drawIndexes len rnd i count = some ((List.range count).map (fun j => rnd (i + j))) := by
  induction count generalizing i with
  | zero => rfl
  | succ count ih =>
    unfold drawIndexes Intn
    rw [if_neg h]
    simp only
    rw [ih (i + 1), List.range_succ_eq_map]
    simp only [Option.map_some', List.map_cons, List.map_map, Nat.add_zero]
    congr 2
    apply List.map_congr_left
    intro j _
    simp only [Function.comp]
    congr 1
    omega

theorem pickKeys_eq (keys : List Key) (idx : List Nat) (h : ∀ i ∈ idx, i < keys.length) :
    ∃ out, pickKeys keys idx = some out ∧ out.length = idx.length ∧
      out.map some = idx.map (fun i => keys[i]?) ∧ ∀ k ∈ out, k ∈ keys := by
  induction idx with
  | nil => exact ⟨[], rfl, rfl, rfl, by simp⟩
  | cons i rest ih =>
    obtain ⟨out, h1, h2, h3, h4⟩ := ih (fun j hj => h j (List.mem_cons_of_mem _ hj))
    have hi : i < keys.length := h i (List.mem_cons_self _ _)
    refine ⟨keys[i] :: out, ?_, by simp [h2], ?_, ?_⟩
    · unfold pickKeys
      rw [List.getElem?_eq_getElem hi]
      simp only [h1, Option.map_some']
    · simp only [List.map_cons, h3, List.getElem?_eq_getElem hi]
    · intro k hk
      rcases List.mem_cons.mp hk with hk | hk
      · rw [hk]; exact List.getElem_mem hi
      · exact h4 k hk

/-- What `randomKeys` returns when the snapshot is not empty and every draw
is inside it. -/
theorem randomKeys_spec (l : Load) (n : Nat) (rnd : Nat → Nat) (hne : l.keys ≠ [])
    (hr : ∀ i, i < n → rnd i < l.keys.length) :
    ∃ (out : List Key) (idx : List Nat),
      randomKeys l n rnd = some out ∧ out.length = n ∧ idx.length = n ∧
      idx.Sorted (· ≤ ·) ∧ idx.Perm ((List.range n).map rnd) ∧
      (∀ i ∈ idx, i < l.keys.length) ∧
      out.map some = idx.map (fun i => l.keys[i]?) ∧ ∀ k ∈ out, k ∈ l.keys := by
  have hlen : l.keys.length ≠ 0 := fun h0 => hne (List.length_eq_zero.mp h0)
  have hdraw := drawIndexes_eq l.keys.length rnd hlen 0 n
  simp only [Nat.zero_add] at hdraw
  have hperm := List.perm_insertionSort (· ≤ ·) ((List.range n).map rnd)
  have hin : ∀ i ∈ ((List.range n).map rnd).insertionSort (· ≤ ·), i < l.keys.length := by
    intro i hi
    have hi2 := hperm.subset hi
    obtain ⟨j, hj, rfl⟩ := List.mem_map.mp hi2
    exact hr j (List.mem_range.mp hj)
  obtain ⟨out, h1, h2, h3, h4⟩ := pickKeys_eq l.keys _ hin
  refine ⟨out, ((List.range n).map rnd).insertionSort (· ≤ ·), ?_, ?_, ?_,
    List.sorted_insertionSort _ _, hperm, hin, h3, h4⟩
  · unfold randomKeys
    rw [hdraw]
    exact h1
  · rw [h2, List.length_insertionSort]; simp
  · rw [List.length_insertionSort]; simp

/-- C2. For every non-empty snapshot, every `n` and every outcome of the `n`
draws, each inside the snapshot, `randomKeys n` returns exactly `n` keys, and
there is a non-decreasing list of `n` indices into the snapshot, a permutation
of the drawn indices, whose keys, in that order, are the returned keys; every
returned key belongs to the snapshot. -/
theorem randomKeys_sorted_sample (l : Load) (n : Nat) (rnd : Nat → Nat)
    (hne : l.keys ≠ []) (hr : ∀ i, i < n → rnd i < l.keys.length) :
    ∃ (out : List Key) (idx : List Nat),
      randomKeys l n rnd = some out ∧ out.length = n ∧ idx.length = n ∧
      idx.Sorted (· ≤ ·) ∧ idx.Perm ((List.range n).map rnd) ∧
      (∀ i ∈ idx, i < l.keys.length) ∧
      out.map some = idx.map (fun i => l.keys[i]?) ∧ ∀ k ∈ out, k ∈ l.keys :=
  randomKeys_spec l n rnd hne hr

/-- C2 on a snapshot of three keys with the draws 2, 1, 0. -/
theorem randomKeys_sorted_sample_witness :
    demoLoad.keys ≠ [] ∧ (∀ i, i < 3 → demoDraws i < demoLoad.keys.length) ∧
      randomKeys demoLoad 3 demoDraws = some [lit "k0", lit "k1", lit "k2"] ∧
      ∃ (out : List Key) (idx : List Nat),
        randomKeys demoLoad 3 demoDraws = some out ∧ out.length = 3 ∧ idx.length = 3 ∧
        idx.Sorted (· ≤ ·) ∧ idx.Perm ((List.range 3).map demoDraws) ∧
        (∀ i ∈ idx, i < demoLoad.keys.length) ∧
        out.map some = idx.map (fun i => demoLoad.keys[i]?) ∧ ∀ k ∈ out, k ∈ demoLoad.keys :=
  ⟨by decide, by decide, by decide,
    randomKeys_sorted_sample demoLoad 3 demoDraws (by decide) (by decide)⟩

/-- C6. After a bootstrap `setKeys` that returned no error, the stored key
list is non-empty, and it stays non-empty after every later `setKeys` of the
key fetcher, failed or not; so every `randomKeys n` made then, its draws inside
the snapshot, draws over a positive length, does not panic and returns `n`
keys of the snapshot. The state `main` starts the workers from is such a
state. -/
theorem snapshot_never_empty {E : Type} (l0 : Load) (boot : InfoResult E)
    (later : List (InfoResult E)) (hboot : (setKeys l0 boot).2 = none) :
    (setKeys l0 boot).1.keys ≠ [] ∧
    (startKeyFetcher (setKeys l0 boot).1 later).keys ≠ [] ∧
    0 < (startKeyFetcher (setKeys l0 boot).1 later).keys.length ∧
    (∀ (n : Nat) (rnd : Nat → Nat),
      (∀ i, i < n → rnd i < (startKeyFetcher (setKeys l0 boot).1 later).keys.length) →
      ∃ out : List Key,
        randomKeys (startKeyFetcher (setKeys l0 boot).1 later) n rnd = some out ∧
        out.length = n ∧
        ∀ k ∈ out, k ∈ (startKeyFetcher (setKeys l0 boot).1 later).keys) ∧
    ∀ (collection : GoString) (diff : Option GoString) (qps workers : Int) (l1 : Load),
      mainInit collection diff qps workers boot = some l1 →
        (startKeyFetcher l1 later).keys ≠ [] := by
  have hlisted : ¬ nothingListed boot := by
    intro hn
    have := (setKeys_of_nothingListed l0 boot hn).2
    rw [hboot] at this
    exact absurd this (by simp)
  have h1 : (setKeys l0 boot).1.keys ≠ [] := by
    obtain ⟨_, first, rest, _, hk, hs⟩ := setKeys_of_listed l0 boot hlisted
    rw [hs]; exact hk
  have h2 := startKeyFetcher_keys_ne_nil _ later h1
  refine ⟨h1, h2, List.length_pos.mpr h2, ?_, ?_⟩
  · intro n rnd hr
    obtain ⟨out, idx, ho, hlen, _, _, _, _, _, hmem⟩ := randomKeys_spec _ n rnd h2 hr
    exact ⟨out, ho, hlen, hmem⟩
  · intro collection diff qps workers l1 hmain
    unfold mainInit at hmain
    cases hw : mainWork qps workers with
    | none => rw [hw] at hmain; exact absurd hmain (by simp)
    | some work =>
      rw [hw] at hmain
      simp only at hmain
      generalize newLoad collection diff work = l at hmain
      obtain ⟨_, first, rest, _, hk, hs⟩ := setKeys_of_listed l boot hlisted
      have : (setKeys l boot).1 = l1 := by
        cases hsk : setKeys l boot with
        | mk a b =>
          rw [hsk] at hmain
          cases b with
          | none => simp only [Option.some.injEq] at hmain; exact hmain
          | some e => exact absurd hmain (by simp)
      apply startKeyFetcher_keys_ne_nil
      rw [← this, hs]
      exact hk

/-- C6 on a bootstrap that lists two keys, followed by an empty answer and a
failed call: the two keys stay. -/
theorem snapshot_never_empty_witness :
    (setKeys { demoLoad with keys := [] } demoListing).2 = none ∧
      (startKeyFetcher (setKeys { demoLoad with keys := [] } demoListing).1
        [demoEmptyListing, demoFailedListing]).keys = [lit "a", lit "b"] ∧
      (startKeyFetcher (setKeys { demoLoad with keys := [] } demoListing).1
        [demoEmptyListing, demoFailedListing]).keys ≠ [] :=
  ⟨by decide, by decide,
    (snapshot_never_empty { demoLoad with keys := [] } demoListing
      [demoEmptyListing, demoFailedListing] (by decide)).2.1⟩

/-! ## Sending -/

theorem randomKeys_one (l : Load) (rnd : Nat → Nat) (hne : l.keys ≠ [])
    (hr : rnd 0 < l.keys.length) : ∃ ks, randomKeys l 1 rnd = some ks := by
  obtain ⟨out, _, h, _⟩ := randomKeys_spec l 1 rnd hne (fun i hi => by
    have : i = 0 := by omega
    rw [this]; exact hr)
  exact ⟨out, h⟩

/-- The send without a diff target: one call, one update of the primary
timer, nothing else. -/
theorem sendSingle_no_diff {Resp E : Type} [DecidableEq Resp] (l : Load) (rnd : Nat → Nat)
    (client : Client Resp E) (ks : List Key) (hk : randomKeys l 1 rnd = some ks) :
    sendSingle l rnd client none =
      some ({ l with rtt := l.rtt + 1 },
        [Action.callPrimary] ++
          (if (client { HfileName := l.collection, SortedKeys := ks }).err.isSome
            then [Action.logError] else [])) := by
  unfold sendSingle
  rw [hk]

/-- The send with a diff target: the two calls one after the other, one
update of each timer, the comparison, and a mark of the diff meter when the
responses differ. -/
theorem sendSingle_diff {Resp E : Type} [DecidableEq Resp] (l : Load) (rnd : Nat → Nat)
    (client d : Client Resp E) (ks : List Key) (hk : randomKeys l 1 rnd = some ks) :
    sendSingle l rnd client (some d) =
      some ({ l with
              rtt := l.rtt + 1
              diffRtt := l.diffRtt + 1
              diffs := l.diffs +
                (if (client { HfileName := l.collection, SortedKeys := ks }).resp
                    = (d { HfileName := l.collection, SortedKeys := ks }).resp then 0 else 1) },
        [Action.callPrimary] ++
          (if (client { HfileName := l.collection, SortedKeys := ks }).err.isSome
            then [Action.logError] else []) ++ [Action.callDiff] ++
          (if (d { HfileName := l.collection, SortedKeys := ks }).err.isSome
            then [Action.logError] else []) ++ [Action.deepEqual] ++
          (if (client { HfileName := l.collection, SortedKeys := ks }).resp
              = (d { HfileName := l.collection, SortedKeys := ks }).resp
            then [] else [Action.logDiff])) := by
  unfold sendSingle
  rw [hk]
  simp only
  by_cases heq : (client { HfileName := l.collection, SortedKeys := ks }).resp
      = (d { HfileName := l.collection, SortedKeys := ks }).resp
  · rw [if_neg (not_not.mpr heq), if_pos heq, if_pos heq]
    simp
  · rw [if_pos heq, if_neg heq, if_neg heq]
    simp

/-- C4, where the claim fails: a send whose primary call returns an error
takes the primary timer from 0 updates to 1. -/
theorem sendSingle_failed_call_updates_rtt :
    (failingClient { HfileName := demoLoad.collection, SortedKeys := [lit "k0"] }).err.isSome
        = true ∧
      demoLoad.rtt = 0 ∧
      (sendSingle demoLoad (fun _ => 0) failingClient none).map (fun r => r.1.rtt) = some 1 ∧
      (sendSingle demoLoad (fun _ => 0) failingClient none).map (fun r => r.2)
        = some [Action.callPrimary, Action.logError] := by
  decide

/-- C4, amended. For every send on a non-empty snapshot, and so for every
send in which the primary target call returns an error, the primary
round-trip timer receives exactly one update; the error is logged right after
the one call to the primary target and the send carries on. -/
theorem sendSingle_rtt_updated_once {Resp E : Type} [DecidableEq Resp] (l : Load)
    (rnd : Nat → Nat) (client : Client Resp E) (diff : Option (Client Resp E))
    (hne : l.keys ≠ []) (hr : rnd 0 < l.keys.length) :
    ∃ (l1 : Load) (acts : List Action) (ks : List Key),
      randomKeys l 1 rnd = some ks ∧
      sendSingle l rnd client diff = some (l1, acts) ∧
      l1.rtt = l.rtt + 1 ∧
      acts.count Action.callPrimary = 1 ∧
      ((client { HfileName := l.collection, SortedKeys := ks }).err.isSome = true →
        acts.take 2 = [Action.callPrimary, Action.logError]) := by
  obtain ⟨ks, hk⟩ := randomKeys_one l rnd hne hr
  cases diff with
  | none =>
    refine ⟨_, _, ks, hk, sendSingle_no_diff l rnd client ks hk, rfl, ?_, ?_⟩
    · split <;> decide
    · intro he
      rw [if_pos he]
      rfl
  | some d =>
    refine ⟨_, _, ks, hk, sendSingle_diff l rnd client d ks hk, rfl, ?_, ?_⟩
    · split <;> split <;> split <;> decide
    · intro he
      rw [if_pos he]
      rfl

/-- C4 at a send whose primary call fails, with no diff target and with
one. -/
theorem sendSingle_rtt_updated_once_witness :
    demoLoad.keys ≠ [] ∧ (0 : Nat) < demoLoad.keys.length ∧
      (∃ (l1 : Load) (acts : List Action),
        sendSingle demoLoad (fun _ => 0) failingClient none = some (l1, acts) ∧
        l1.rtt = demoLoad.rtt + 1) ∧
      ∃ (l1 : Load) (acts : List Action),
        sendSingle demoLoad (fun _ => 0) failingClient (some (answeringClient 7))
          = some (l1, acts) ∧
        l1.rtt = demoLoad.rtt + 1 := by
  refine ⟨by decide, by decide, ?_, ?_⟩
  · obtain ⟨l1, acts, _, _, h1, h2, _⟩ :=
      sendSingle_rtt_updated_once demoLoad (fun _ => 0) failingClient none
        (by decide) (by decide)
    exact ⟨l1, acts, h1, h2⟩
  · obtain ⟨l1, acts, _, _, h1, h2, _⟩ :=
      sendSingle_rtt_updated_once demoLoad (fun _ => 0) failingClient
        (some (answeringClient 7)) (by decide) (by decide)
    exact ⟨l1, acts, h1, h2⟩

/-- C5. In diff mode the send obtains the two responses and the diff
counter grows by exactly 1 when they are not deeply equal and stays as it was
when they are; with no diff target the diff counter is not touched, no call
goes to a diff target and nothing is compared; and a worker has a diff target
only when one is configured with a non-empty address. -/
theorem diffs_marked_iff_responses_differ {Resp E : Type} [DecidableEq Resp] (l : Load)
    (rnd : Nat → Nat) (client d : Client Resp E)
    (hne : l.keys ≠ []) (hr : rnd 0 < l.keys.length) :
    (∃ (l1 : Load) (acts : List Action) (ks : List Key),
      randomKeys l 1 rnd = some ks ∧
      sendSingle l rnd client (some d) = some (l1, acts) ∧
      Action.deepEqual ∈ acts ∧
      ((client { HfileName := l.collection, SortedKeys := ks }).resp
          ≠ (d { HfileName := l.collection, SortedKeys := ks }).resp →
        l1.diffs = l.diffs + 1) ∧
      ((client { HfileName := l.collection, SortedKeys := ks }).resp
          = (d { HfileName := l.collection, SortedKeys := ks }).resp →
        l1.diffs = l.diffs)) ∧
    (∃ (l1 : Load) (acts : List Action),
      sendSingle l rnd client none = some (l1, acts) ∧
      l1.diffs = l.diffs ∧ l1.diffRtt = l.diffRtt ∧
      Action.callDiff ∉ acts ∧ Action.deepEqual ∉ acts) ∧
    ∀ dial : GoString → Client Resp E,
      (workerDiff l dial).isNone = true ↔ (l.diff = none ∨ l.diff = some []) := by
  obtain ⟨ks, hk⟩ := randomKeys_one l rnd hne hr
  refine ⟨⟨_, _, ks, hk, sendSingle_diff l rnd client d ks hk, ?_, ?_, ?_⟩,
    ⟨_, _, sendSingle_no_diff l rnd client ks hk, rfl, rfl, ?_, ?_⟩, ?_⟩
  · simp
  · intro hx
    simp only [if_neg hx]
  · intro hx
    simp only [if_pos hx, Nat.add_zero]
  · split <;> decide
  · split <;> decide
  · intro dial
    unfold workerDiff
    cases hd : l.diff with
    | none => simp
    | some url =>
      cases url with
      | nil => simp
      | cons b rest => simp

/-- C5 at a send whose two targets answer 7 and 8, and one whose two targets
both answer 7. -/
theorem diffs_marked_iff_responses_differ_witness :
    demoLoad.keys ≠ [] ∧ (0 : Nat) < demoLoad.keys.length ∧
      (sendSingle demoLoad (fun _ => 0) (answeringClient 7) (some (answeringClient 8))).map
          (fun r => r.1.diffs) = some 1 ∧
      (sendSingle demoLoad (fun _ => 0) (answeringClient 7) (some (answeringClient 7))).map
          (fun r => r.1.diffs) = some 0 ∧
      ∃ (l1 : Load) (acts : List Action),
        sendSingle demoLoad (fun _ => 0) (answeringClient 7) none = some (l1, acts) ∧
        l1.diffs = demoLoad.diffs ∧ l1.diffRtt = demoLoad.diffRtt ∧
        Action.callDiff ∉ acts ∧ Action.deepEqual ∉ acts :=
  ⟨by decide, by decide, by decide, by decide,
    (diffs_marked_iff_responses_differ demoLoad (fun _ => 0) (answeringClient 7)
      (answeringClient 8) (by decide) (by decide)).2.1⟩

/-- The send in diff mode to its end: the state reached and what was done
are those of `sendSingle`, the line of the `[DIFF]` record apart; the send
returns when the responses are equal, and otherwise exactly when the two
`GetKeyCount` calls of the record return. -/
theorem sendSingleRun_diff {Resp E : Type} [DecidableEq Resp]
    (GetKeyCount : Option Resp → Option Int) (l : Load) (rnd : Nat → Nat)
    (client d : Client Resp E) (ks : List Key) (hk : randomKeys l 1 rnd = some ks) :
    ∃ (l1 : Load) (acts : List Action) (tail : List Action),
      (sendSingleRun GetKeyCount l rnd client (some d) = .returned (l1, acts) ∨
        sendSingleRun GetKeyCount l rnd client (some d) = .panicked (l1, acts)) ∧
      l1 = { l with
              rtt := l.rtt + 1
              diffRtt := l.diffRtt + 1
              diffs := l.diffs +
                (if (client { HfileName := l.collection, SortedKeys := ks }).resp
                    = (d { HfileName := l.collection, SortedKeys := ks }).resp then 0 else 1) } ∧
      acts = [Action.callPrimary] ++
          (if (client { HfileName := l.collection, SortedKeys := ks }).err.isSome
            then [Action.logError] else []) ++ [Action.callDiff] ++
          (if (d { HfileName := l.collection, SortedKeys := ks }).err.isSome
            then [Action.logError] else []) ++ [Action.deepEqual] ++ tail ∧
      (tail = [] ∨ tail = [Action.logDiff]) ∧
      ((client { HfileName := l.collection, SortedKeys := ks }).resp
          = (d { HfileName := l.collection, SortedKeys := ks }).resp →
        sendSingleRun GetKeyCount l rnd client (some d) = .returned (l1, acts)) ∧
      ((client { HfileName := l.collection, SortedKeys := ks }).resp
          ≠ (d { HfileName := l.collection, SortedKeys := ks }).resp →
        (sendSingleRun GetKeyCount l rnd client (some d) = .returned (l1, acts) ↔
          (diffRecord GetKeyCount (client { HfileName := l.collection, SortedKeys := ks }).resp
            (d { HfileName := l.collection, SortedKeys := ks }).resp).isSome = true)) := by
  unfold sendSingleRun
  rw [hk]
  simp only
  by_cases heq : (client { HfileName := l.collection, SortedKeys := ks }).resp
      = (d { HfileName := l.collection, SortedKeys := ks }).resp
  · rw [if_neg (not_not.mpr heq)]
    refine ⟨_, _, [], Or.inl rfl, ?_, ?_, Or.inl rfl, fun _ => rfl, fun hx => absurd heq hx⟩
    · rw [if_pos heq]
      rfl
    · simp
  · rw [if_pos heq]
    cases hrec : diffRecord GetKeyCount
        (client { HfileName := l.collection, SortedKeys := ks }).resp
        (d { HfileName := l.collection, SortedKeys := ks }).resp with
    | some u =>
      refine ⟨_, _, [Action.logDiff], Or.inl rfl, ?_, ?_, Or.inr rfl,
        fun hx => absurd hx heq, fun _ => ⟨fun _ => rfl, fun _ => rfl⟩⟩
      · rw [if_neg heq]
      · simp
    | none =>
      refine ⟨_, _, [], Or.inr rfl, ?_, ?_, Or.inl rfl,
        fun hx => absurd hx heq, fun _ => ⟨fun hx => ?_, fun hx => ?_⟩⟩
      · rw [if_neg heq]
      · simp
      · exact absurd hx (by simp)
      · exact absurd hx (by simp)

/-- C8, where the claim fails: in diff mode a send whose primary call fails
goes on to call the diff target, updates the diff timer, compares the two
responses and, the diff target having answered, marks a diff; and this is
the state the send reaches whatever `GetKeyCount` does in the `[DIFF]`
record. -/
theorem sendSingle_failed_call_still_diffs :
    (failingClient { HfileName := demoLoad.collection, SortedKeys := [lit "k0"] }).err.isSome
        = true ∧
      demoLoad.diffRtt = 0 ∧ demoLoad.diffs = 0 ∧
      (sendSingle demoLoad (fun _ => 0) failingClient (some (answeringClient 7))).map
          (fun r => r.2)
        = some [Action.callPrimary, Action.logError, Action.callDiff, Action.deepEqual,
            Action.logDiff] ∧
      (sendSingle demoLoad (fun _ => 0) failingClient (some (answeringClient 7))).map
          (fun r => (r.1.diffRtt, r.1.diffs)) = some (1, 1) ∧
      ∀ GetKeyCount : Option Nat → Option Int,
        ∃ (l1 : Load) (acts : List Action),
          (sendSingleRun GetKeyCount demoLoad (fun _ => 0) failingClient
              (some (answeringClient 7)) = .returned (l1, acts) ∨
            sendSingleRun GetKeyCount demoLoad (fun _ => 0) failingClient
              (some (answeringClient 7)) = .panicked (l1, acts)) ∧
          Action.callDiff ∈ acts ∧ Action.deepEqual ∈ acts ∧
          l1.diffRtt = 1 ∧ l1.diffs = 1 := by
  refine ⟨by decide, by decide, by decide, by decide, by decide, fun g => ?_⟩
  obtain ⟨l1, acts, tail, hrun, hl1, hacts, _, _, _⟩ :=
    sendSingleRun_diff g demoLoad (fun _ => 0) failingClient (answeringClient 7)
      [lit "k0"] (by decide)
  refine ⟨l1, acts, hrun, ?_, ?_, ?_, ?_⟩
  · rw [hacts]; simp
  · rw [hacts]; simp
  · rw [hl1]; rfl
  · rw [hl1]; rfl

/-- C8, amended. For every round of a worker in diff mode in which the
primary target call fails: the worker takes one permit, logs the error, does
not call the primary target again and does not drop the send: it issues the
same request once to the diff target, the diff timer receives exactly one
update, the two responses are compared, and the diff counter grows by 1
exactly when they are not deeply equal. This is the state reached whether the
round returns or ends in a panic. When the two responses are deeply equal the
round returns, and the worker is back at the queue with one permit less. -/
theorem workerStep_failed_call_carries_on {Resp E : Type} [DecidableEq Resp]
    (GetKeyCount : Option Resp → Option Int) (l : Load)
    (rnd : Nat → Nat) (client d : Client Resp E)
    (hq : l.work.buf ≠ []) (hne : l.keys ≠ []) (hr : rnd 0 < l.keys.length)
    (herr : ∀ ks, randomKeys l 1 rnd = some ks →
      (client { HfileName := l.collection, SortedKeys := ks }).err.isSome = true) :
    ∃ (l1 : Load) (acts : List Action) (ks : List Key),
      randomKeys l 1 rnd = some ks ∧
      (workerStep GetKeyCount l rnd client (some d) = some (.returned (l1, acts)) ∨
        workerStep GetKeyCount l rnd client (some d) = some (.panicked (l1, acts))) ∧
      acts.take 3 = [Action.callPrimary, Action.logError, Action.callDiff] ∧
      acts.count Action.callPrimary = 1 ∧
      acts.count Action.callDiff = 1 ∧
      acts.count Action.deepEqual = 1 ∧
      l1.rtt = l.rtt + 1 ∧
      l1.diffRtt = l.diffRtt + 1 ∧
      l1.diffs = l.diffs +
        (if (client { HfileName := l.collection, SortedKeys := ks }).resp
            = (d { HfileName := l.collection, SortedKeys := ks }).resp then 0 else 1) ∧
      l1.work.buf.length + 1 = l.work.buf.length ∧
      l1.keys = l.keys ∧
      ((client { HfileName := l.collection, SortedKeys := ks }).resp
          = (d { HfileName := l.collection, SortedKeys := ks }).resp →
        workerStep GetKeyCount l rnd client (some d) = some (.returned (l1, acts))) := by
  obtain ⟨ks, hk⟩ := randomKeys_one l rnd hne hr
  cases hb : l.work.buf with
  | nil => exact absurd hb hq
  | cons permit rest =>
    have hdq : dequeue l = { l with work := { l.work with buf := rest } } := by
      unfold dequeue
      simp only [hb]
    have hk2 : randomKeys (dequeue l) 1 rnd = some ks := by
      rw [hdq]
      exact hk
    have hcol : (dequeue l).collection = l.collection := by rw [hdq]
    have hw : workerStep GetKeyCount l rnd client (some d)
        = some (sendSingleRun GetKeyCount (dequeue l) rnd client (some d)) := by
      unfold workerStep sendOne
      simp only [hb]
    obtain ⟨l1, acts, tail, hrun, hl1, hacts, htail, hret, _⟩ :=
      sendSingleRun_diff GetKeyCount (dequeue l) rnd client d ks hk2
    rw [hcol] at hl1 hacts hret
    have he := herr ks hk
    rw [if_pos he] at hacts
    refine ⟨l1, acts, ks, hk, ?_, ?_, ?_, ?_, ?_, ?_, ?_, ?_, ?_, ?_, ?_⟩
    · rw [hw]
      rcases hrun with h | h
      · exact Or.inl (by rw [h])
      · exact Or.inr (by rw [h])
    · rw [hacts]; rfl
    · rw [hacts]
      rcases htail with h | h <;> rw [h] <;> split <;> decide
    · rw [hacts]
      rcases htail with h | h <;> rw [h] <;> split <;> decide
    · rw [hacts]
      rcases htail with h | h <;> rw [h] <;> split <;> decide
    · rw [hl1, hdq]
    · rw [hl1, hdq]
    · rw [hl1, hdq]
    · rw [hl1, hdq]
      simp
    · rw [hl1, hdq]
    · intro hx
      rw [hw, hret hx]

/-- C8 at a worker in diff mode with one permit queued and a failing primary
target. With a diff target that fails too the two responses are equal and the
round returns; with one that answers, the diff target is called and its timer
updated, and with a `GetKeyCount` that panics on the `nil` response the round
ends in the panic of the record. -/
theorem workerStep_failed_call_carries_on_witness :
    demoLoad.work.buf ≠ [] ∧ demoLoad.keys ≠ [] ∧ (0 : Nat) < demoLoad.keys.length ∧
      (∀ ks, randomKeys demoLoad 1 (fun _ => 0) = some ks →
        (failingClient { HfileName := demoLoad.collection, SortedKeys := ks }).err.isSome
          = true) ∧
      (∃ (l1 : Load) (acts : List Action),
        workerStep getterNilPanics demoLoad (fun _ => 0) failingClient (some failingClient)
          = some (.returned (l1, acts)) ∧
        acts.count Action.callDiff = 1 ∧ l1.diffRtt = demoLoad.diffRtt + 1 ∧
        l1.diffs = demoLoad.diffs ∧ l1.work.buf.length + 1 = demoLoad.work.buf.length) ∧
      workerStep getterNilPanics demoLoad (fun _ => 0) failingClient (some (answeringClient 7))
        = some (.panicked ({ demoLoad with
            work := { buf := [], cap := 2 }, rtt := 1, diffRtt := 1, diffs := 1 },
          [Action.callPrimary, Action.logError, Action.callDiff, Action.deepEqual])) ∧
      workerStep getterNilZero demoLoad (fun _ => 0) failingClient (some (answeringClient 7))
        = some (.returned ({ demoLoad with
            work := { buf := [], cap := 2 }, rtt := 1, diffRtt := 1, diffs := 1 },
          [Action.callPrimary, Action.logError, Action.callDiff, Action.deepEqual,
            Action.logDiff])) := by
  refine ⟨by decide, by decide, by decide, fun _ _ => rfl, ?_, by decide, by decide⟩
  obtain ⟨l1, acts, ks, _, _, _, _, h2, _, _, h3, h4, h5, _, h6⟩ :=
    workerStep_failed_call_carries_on getterNilPanics demoLoad (fun _ => 0) failingClient
      failingClient (by decide) (by decide) (by decide) (fun _ _ => rfl)
  refine ⟨l1, acts, h6 rfl, h2, h3, ?_, h5⟩
  rw [h4]
  rfl

/-! ## Addresses and paths -/

theorem ContainsByte_iff (s : GoString) (b : UInt8) : ContainsByte s b = true ↔ b ∈ s := by
  unfold ContainsByte
  exact List.elem_iff

theorem HasPrefix_iff (s p : GoString) : HasPrefix s p = true ↔ p <+: s := by
  unfold HasPrefix
  exact List.isPrefixOf_iff_prefix

theorem Split_ne_nil (sep : UInt8) (s : GoString) : Split sep s ≠ [] := by
  cases s with
  | nil => simp [Split]
  | cons c cs =>
    unfold Split
    split
    · simp
    · split <;> simp

theorem Split_length (sep : UInt8) (s : GoString) :
    (Split sep s).length = s.count sep + 1 := by
  induction s with
  | nil => simp [Split]
  | cons c cs ih =>
    unfold Split
    by_cases hc : c = sep
    · rw [if_pos hc, hc]
      simp [ih]
    · rw [if_neg hc]
      have hcount : (c :: cs).count sep = cs.count sep := by
        rw [List.count_cons]
        simp [hc]
      rw [hcount, ← ih]
      cases hsp : Split sep cs with
      | nil => exact absurd hsp (Split_ne_nil sep cs)
      | cons q qs => simp

theorem not_mem_of_mem_Split (sep : UInt8) (s : GoString) :
    ∀ p ∈ Split sep s, sep ∉ p := by
  induction s with
  | nil =>
    intro p hp
    simp only [Split, List.mem_singleton] at hp
    rw [hp]
    exact List.not_mem_nil _
  | cons c cs ih =>
    intro p hp
    unfold Split at hp
    by_cases hc : c = sep
    · rw [if_pos hc] at hp
      rcases List.mem_cons.mp hp with h | h
      · rw [h]; exact List.not_mem_nil _
      · exact ih p h
    · rw [if_neg hc] at hp
      cases hsp : Split sep cs with
      | nil => exact absurd hsp (Split_ne_nil sep cs)
      | cons q qs =>
        rw [hsp] at hp ih
        simp only at hp
        rcases List.mem_cons.mp hp with h | h
        · rw [h]
          intro hmem
          rcases List.mem_cons.mp hmem with h2 | h2
          · exact hc h2.symm
          · exact ih q (List.mem_cons_self _ _) h2
        · exact ih p (List.mem_cons_of_mem _ h)

/-- The address `hfileUrlAndName` goes on with after the split has no `=`. -/
theorem afterSplit_no_sep (sep : UInt8) (s : GoString) :
    sep ∉ (if 1 < (Split sep s).length then (Split sep s).getD 1 [] else s) := by
  by_cases h : 1 < (Split sep s).length
  · rw [if_pos h, List.getD_eq_getElem _ _ h]
    exact not_mem_of_mem_Split sep s _ (List.getElem_mem h)
  · rw [if_neg h]
    rw [Split_length] at h
    exact List.count_eq_zero.mp (by omega)

theorem Split_length_of_not_mem (sep : UInt8) (s : GoString) (h : sep ∉ s) :
    ¬ 1 < (Split sep s).length := by
  rw [Split_length, List.count_eq_zero.mpr h]
  omega

theorem hfileUrlAndName_fst (s : GoString) :
    (hfileUrlAndName s).1 =
      (let s1 := if 1 < (Split (byte '=') s).length then (Split (byte '=') s).getD 1 [] else s
       let s2 := if !ContainsByte s1 (byte '/') then s1 ++ lit "/rpc/HFileService" else s1
       if !HasPrefix s2 (lit "http") then lit "http://" ++ s2 else s2) := rfl

/-- An address that starts with `http`, has a `/` and has no `=` is what
`hfileUrlAndName` returns for itself. -/
theorem hfileUrlAndName_fixed (u : GoString) (h1 : HasPrefix u (lit "http") = true)
    (h2 : ContainsByte u (byte '/') = true) (h3 : byte '=' ∉ u) :
    (hfileUrlAndName u).1 = u := by
  rw [hfileUrlAndName_fst]
  simp only [if_neg (Split_length_of_not_mem _ u h3), h2, Bool.not_true]
  have hf : ¬ (false = true) := by decide
  simp only [if_neg hf, h1, Bool.not_true]

/-- C9. For every input the address `hfileUrlAndName` returns starts with
`http`, contains a `/`, contains no `=`, and is returned unchanged when
`hfileUrlAndName` is applied to it; `localhost:9999` gives the address
`http://localhost:9999/rpc/HFileService` and the name `localhost_9999`. -/
theorem hfileUrlAndName_url_fixed_point (s : GoString) :
    HasPrefix (hfileUrlAndName s).1 (lit "http") = true ∧
    ContainsByte (hfileUrlAndName s).1 (byte '/') = true ∧
    ContainsByte (hfileUrlAndName s).1 (byte '=') = false ∧
    (hfileUrlAndName (hfileUrlAndName s).1).1 = (hfileUrlAndName s).1 ∧
    hfileUrlAndName (lit "localhost:9999")
      = (lit "http://localhost:9999/rpc/HFileService", lit "localhost_9999") := by
  have hsep := afterSplit_no_sep (byte '=') s
  generalize hs1 : (if 1 < (Split (byte '=') s).length
    then (Split (byte '=') s).getD 1 [] else s) = s1 at hsep
  have hu : (hfileUrlAndName s).1 =
      (let s2 := if !ContainsByte s1 (byte '/') then s1 ++ lit "/rpc/HFileService" else s1
       if !HasPrefix s2 (lit "http") then lit "http://" ++ s2 else s2) := by
    rw [hfileUrlAndName_fst, hs1]
  have hA : ∀ s2 : GoString, byte '/' ∈ s2 → byte '=' ∉ s2 →
      HasPrefix (if !HasPrefix s2 (lit "http") then lit "http://" ++ s2 else s2) (lit "http")
        = true ∧
      byte '/' ∈ (if !HasPrefix s2 (lit "http") then lit "http://" ++ s2 else s2) ∧
      byte '=' ∉ (if !HasPrefix s2 (lit "http") then lit "http://" ++ s2 else s2) := by
    intro s2 hsl hse
    cases hp : HasPrefix s2 (lit "http") with
    | true => exact ⟨by simpa using hp, by simpa using hsl, by simpa using hse⟩
    | false =>
      simp only [Bool.not_false, if_true]
      refine ⟨?_, List.mem_append_right _ hsl, ?_⟩
      · rw [HasPrefix_iff]
        have : lit "http://" = lit "http" ++ lit "://" := by decide
        rw [this, List.append_assoc]
        exact List.prefix_append _ _
      · intro hmem
        rcases List.mem_append.mp hmem with h | h
        · revert h; decide
        · exact hse h
  have hB : byte '/' ∈ (if !ContainsByte s1 (byte '/') then s1 ++ lit "/rpc/HFileService"
        else s1) ∧
      byte '=' ∉ (if !ContainsByte s1 (byte '/') then s1 ++ lit "/rpc/HFileService"
        else s1) := by
    cases hc : ContainsByte s1 (byte '/') with
    | true =>
      simp only [Bool.not_true]
      exact ⟨(ContainsByte_iff _ _).mp hc, hsep⟩
    | false =>
      simp only [Bool.not_false, if_true]
      refine ⟨List.mem_append_right _ (by decide), ?_⟩
      intro hmem
      rcases List.mem_append.mp hmem with h | h
      · exact hsep h
      · revert h; decide
  obtain ⟨h1, h2, h3⟩ := hA _ hB.1 hB.2
  simp only at hu
  rw [← hu] at h1 h2 h3
  have h2c := (ContainsByte_iff _ _).mpr h2
  refine ⟨h1, h2c, ?_, hfileUrlAndName_fixed _ h1 h2c h3, by decide⟩
  cases hc : ContainsByte (hfileUrlAndName s).1 (byte '=') with
  | false => rfl
  | true => exact absurd ((ContainsByte_iff _ _).mp hc) h3

theorem IsHdfs_of_remote (Settings : SettingsT) (p : GoString)
    (h : 1 < Settings.hdfsPathPrefix.length ∧ HasPrefix p Settings.hdfsPathPrefix = true) :
    IsHdfs Settings p = (true, p.drop Settings.hdfsPathPrefix.length) := by
  unfold IsHdfs TrimPrefix
  rw [if_pos h, if_pos h.2]

theorem IsHdfs_of_not_remote (Settings : SettingsT) (p : GoString)
    (h : ¬ (1 < Settings.hdfsPathPrefix.length ∧ HasPrefix p Settings.hdfsPathPrefix = true)) :
    IsHdfs Settings p = (false, p) := by
  unfold IsHdfs
  rw [if_neg h]

/-- What `FetchCollections` returns when it returns a list: an entry for
every entry, in order, the entries whose path is not remote as they were. -/
theorem FetchCollections_ok {E : Type} (Settings : SettingsT)
    (FetchFromHdfs : GoString → GoString → Except E GoString)
    (unfetched fetched : List CollectionConfig)
    (h : FetchCollections Settings FetchFromHdfs unfetched = .ok fetched) :
    fetched.length = unfetched.length ∧
      ∀ (i : Nat) (cfg : CollectionConfig), unfetched[i]? = some cfg →
        (IsHdfs Settings cfg.Path).1 = false → fetched[i]? = some cfg := by
  induction unfetched generalizing fetched with
  | nil =>
    simp only [FetchCollections, Except.ok.injEq] at h
    rw [← h]
    exact ⟨rfl, fun i cfg hi => by simp at hi⟩
  | cons c rest ih =>
    unfold FetchCollections at h
    cases hI : IsHdfs Settings c.Path with
    | mk b trimmed =>
      rw [hI] at h
      cases b with
      | true =>
        simp only at h
        cases hf : FetchFromHdfs c.Name trimmed with
        | error e => rw [hf] at h; exact absurd h (by simp)
        | ok localPath =>
          rw [hf] at h
          simp only at h
          cases hrest : FetchCollections Settings FetchFromHdfs rest with
          | error e => rw [hrest] at h; exact absurd h (by simp)
          | ok got =>
            rw [hrest] at h
            simp only [Except.ok.injEq] at h
            obtain ⟨hl, hi⟩ := ih got hrest
            rw [← h]
            refine ⟨by simp [hl], fun i cfg hget hloc => ?_⟩
            cases i with
            | zero =>
              simp only [List.getElem?_cons_zero, Option.some.injEq] at hget
              rw [← hget, hI] at hloc
              exact absurd hloc (by simp)
            | succ j =>
              simp only [List.getElem?_cons_succ] at hget ⊢
              exact hi j cfg hget hloc
      | false =>
        simp only at h
        cases hrest : FetchCollections Settings FetchFromHdfs rest with
        | error e => rw [hrest] at h; exact absurd h (by simp)
        | ok got =>
          rw [hrest] at h
          simp only [Except.ok.injEq] at h
          obtain ⟨hl, hi⟩ := ih got hrest
          rw [← h]
          refine ⟨by simp [hl], fun i cfg hget hloc => ?_⟩
          cases i with
          | zero =>
            simp only [List.getElem?_cons_zero, Option.some.injEq] at hget ⊢
            exact hget
          | succ j =>
            simp only [List.getElem?_cons_succ] at hget ⊢
            exact hi j cfg hget hloc

/-- When no path is remote `FetchCollections` downloads nothing and returns
the entries as they were. -/
theorem FetchCollections_all_local {E : Type} (Settings : SettingsT)
    (FetchFromHdfs : GoString → GoString → Except E GoString)
    (unfetched : List CollectionConfig)
    (h : ∀ cfg ∈ unfetched, (IsHdfs Settings cfg.Path).1 = false) :
    FetchCollections Settings FetchFromHdfs unfetched = .ok unfetched := by
  induction unfetched with
  | nil => rfl
  | cons c rest ih =>
    unfold FetchCollections
    have hc := h c (List.mem_cons_self _ _)
    cases hI : IsHdfs Settings c.Path with
    | mk b trimmed =>
      rw [hI] at hc
      simp only at hc
      subst hc
      simp only
      rw [ih (fun cfg hcfg => h cfg (List.mem_cons_of_mem _ hcfg))]

/-- C10. `IsHdfs p` returns `(true, t)` exactly when the configured prefix
`x` has more than one byte and `p` starts with `x`, and then `x` followed by
`t` is `p`; in every other case, an empty or one-byte prefix among them, it
returns `(false, p)`. So `FetchCollections`, when it returns a list, returns
one entry per entry with every entry of such a path as it was, and when every
path is such a path it returns the list it was given. With the prefix
`/hdfs`, `/hdfs/a` is split into `/hdfs` and `/a`, and `/data/a` is left. -/
theorem IsHdfs_splits_remote_paths {E : Type} (Settings : SettingsT) (p : GoString)
    (FetchFromHdfs : GoString → GoString → Except E GoString)
    (unfetched : List CollectionConfig) :
    ((IsHdfs Settings p).1 = true ↔
      (1 < Settings.hdfsPathPrefix.length ∧ HasPrefix p Settings.hdfsPathPrefix = true)) ∧
    ((IsHdfs Settings p).1 = true → Settings.hdfsPathPrefix ++ (IsHdfs Settings p).2 = p) ∧
    ((IsHdfs Settings p).1 = false → IsHdfs Settings p = (false, p)) ∧
    (Settings.hdfsPathPrefix.length ≤ 1 → IsHdfs Settings p = (false, p)) ∧
    (∀ fetched : List CollectionConfig,
      FetchCollections Settings FetchFromHdfs unfetched = .ok fetched →
        fetched.length = unfetched.length ∧
        ∀ (i : Nat) (cfg : CollectionConfig), unfetched[i]? = some cfg →
          (IsHdfs Settings cfg.Path).1 = false → fetched[i]? = some cfg) ∧
    ((∀ cfg ∈ unfetched, (IsHdfs Settings cfg.Path).1 = false) →
      FetchCollections Settings FetchFromHdfs unfetched = .ok unfetched) ∧
    IsHdfs demoSettings (lit "/hdfs/a") = (true, lit "/a") ∧
    IsHdfs demoSettings (lit "/data/a") = (false, lit "/data/a") := by
  refine ⟨?_, ?_, ?_, ?_, fun fetched h => FetchCollections_ok Settings FetchFromHdfs _ _ h,
    FetchCollections_all_local Settings FetchFromHdfs unfetched, by decide, by decide⟩
  · by_cases h : 1 < Settings.hdfsPathPrefix.length ∧ HasPrefix p Settings.hdfsPathPrefix = true
    · rw [IsHdfs_of_remote Settings p h]
      exact ⟨fun _ => h, fun _ => rfl⟩
    · rw [IsHdfs_of_not_remote Settings p h]
      exact ⟨fun hx => absurd hx (by simp), fun hx => absurd hx h⟩
  · intro ht
    by_cases h : 1 < Settings.hdfsPathPrefix.length ∧ HasPrefix p Settings.hdfsPathPrefix = true
    · rw [IsHdfs_of_remote Settings p h]
      exact List.prefix_iff_eq_append.mp ((HasPrefix_iff _ _).mp h.2)
    · rw [IsHdfs_of_not_remote Settings p h] at ht
      exact absurd ht (by simp)
  · intro hf
    by_cases h : 1 < Settings.hdfsPathPrefix.length ∧ HasPrefix p Settings.hdfsPathPrefix = true
    · rw [IsHdfs_of_remote Settings p h] at hf
      exact absurd hf (by simp)
    · exact IsHdfs_of_not_remote Settings p h
  · intro hlen
    exact IsHdfs_of_not_remote Settings p (fun h => by omega)

end Quiver
